import Mathlib

/-!
Verification of the connection core of the `rust-http2` repository.

Part 1 embeds `src/bytes_deque/buf_vec_deque.rs` (`BufVecDeque`, the
"Chunk Queue"): a deque of byte chunks with an incrementally maintained
total length.  Chunks (`B: Buf` in the source) are modelled as byte
lists; `Buf::remaining` is list length and `Buf::advance` is `List.drop`.

Part 2 models the flow-control window tracker, the outbound pump and the
client stream lifecycle.  Their implementation is not part of the sources
(only their tests are), so those definitions are modelled from the spec.
-/

/-- A byte chunk: the `B: Buf` parameter of `BufVecDeque`, modelled as a
list of bytes; `Buf::remaining` is `List.length`. -/
abbrev Chunk : Type := List Nat

/-- `Buf::remaining` of a chunk. -/
def Chunk.remaining (c : Chunk) : Nat := List.length c

/-- `Buf::advance` of a chunk: drop `n` bytes from the front. -/
def Chunk.advanceChunk (c : Chunk) (n : Nat) : Chunk := List.drop n c

/-- `BufVecDeque<B>`: deque of chunks + incrementally maintained total
length (`len` field in the source).  Front of the deque is the list head. -/
structure BufVecDeque where
  deque : List Chunk
  len : Nat
deriving DecidableEq

namespace BufVecDeque

/-- Sum of `remaining` over a chunk list (used by the `From` impl and by
the stated invariant). -/
def sumRemaining (l : List Chunk) : Nat := (l.map Chunk.remaining).sum

/-- `BufVecDeque::new` / `Default`. -/
def new : BufVecDeque := ⟨[], 0⟩

/-- `impl From<I> for BufVecDeque`: `len` is recomputed by a full scan. -/
def fromChunks (l : List Chunk) : BufVecDeque := ⟨l, sumRemaining l⟩

/-- `BufVecDeque::push_back`. -/
def push_back (q : BufVecDeque) (b : Chunk) : BufVecDeque :=
  ⟨q.deque ++ [b], q.len + Chunk.remaining b⟩

/-- `BufVecDeque::pop_back` (resulting state; on an empty deque the source
returns `None` and leaves the queue unchanged). -/
def pop_back (q : BufVecDeque) : BufVecDeque :=
  match q.deque.getLast? with
  | none => q
  | some b => ⟨q.deque.dropLast, q.len - Chunk.remaining b⟩

/-- `BufVecDeque::back_mut` followed by an arbitrary mutation `f` of the
back chunk and the `Drop for BufVecDequeBackMut` reconciliation:
the back chunk is popped, mutated, the length delta is applied to `len`
(grow or shrink branch exactly as in the source) and the chunk is pushed
back onto the rear of the inner deque.  On an empty deque `back_mut`
returns `None` and nothing happens. -/
def backMutApply (f : Chunk → Chunk) (q : BufVecDeque) : BufVecDeque :=
  match q.deque.getLast? with
  | none => q
  | some back =>
    let new_remaining := Chunk.remaining (f back)
    let len' :=
      if new_remaining > Chunk.remaining back then
        q.len + (new_remaining - Chunk.remaining back)
      else
        q.len - (Chunk.remaining back - new_remaining)
    ⟨q.deque.dropLast ++ [f back], len'⟩

/-- The loop of `Buf::advance for BufVecDeque`: `none` models a panic of
`front_mut().unwrap()` / `pop_front().unwrap()` on an empty deque. -/
def advanceLoop (d : List Chunk) (cnt : Nat) : Option (List Chunk) :=
  if cnt = 0 then some d
  else
    match d with
    | [] => none
    | front :: rest =>
      if cnt < Chunk.remaining front then some (Chunk.advanceChunk front cnt :: rest)
      else advanceLoop rest (cnt - Chunk.remaining front)

/-- `Buf::advance for BufVecDeque`: asserts `len >= cnt` (`none` models the
assertion panic), subtracts `cnt` from `len` and drains whole chunks from
the front, slicing the first partially-consumed chunk in place. -/
def advance (q : BufVecDeque) (cnt : Nat) : Option BufVecDeque :=
  if cnt ≤ q.len then
    (advanceLoop q.deque cnt).map (fun d => ⟨d, q.len - cnt⟩)
  else
    none

/-- The stated Chunk Queue invariant: `len` equals the sum of the
remaining byte counts of all chunks. -/
def Inv (q : BufVecDeque) : Prop := q.len = sumRemaining q.deque

instance (q : BufVecDeque) : Decidable q.Inv := by
  unfold Inv; infer_instance

/-- One Chunk Queue operation (the operations named by the spec). -/
inductive Op where
  | push (c : Chunk)
  | pop
  | adv (cnt : Nat)
  | backMut (f : Chunk → Chunk)

/-- Apply one operation; `none` propagates a panic of `advance`. -/
def applyOp (q : BufVecDeque) : Op → Option BufVecDeque
  | .push c => some (q.push_back c)
  | .pop => some q.pop_back
  | .adv cnt => q.advance cnt
  | .backMut f => some (backMutApply f q)

/-- Run a sequence of operations starting from a queue constructed from an
existing collection of chunks. -/
def runOps (init : List Chunk) (ops : List Op) : Option BufVecDeque :=
  ops.foldlM applyOp (fromChunks init)

@[simp]
theorem sumRemaining_nil : sumRemaining [] = 0 := rfl

@[simp]
theorem sumRemaining_cons (c : Chunk) (l : List Chunk) :
    sumRemaining (c :: l) = Chunk.remaining c + sumRemaining l := by
  simp [sumRemaining]

theorem sumRemaining_append (l₁ l₂ : List Chunk) :
    sumRemaining (l₁ ++ l₂) = sumRemaining l₁ + sumRemaining l₂ := by
  simp [sumRemaining]

theorem sumRemaining_concat (l : List Chunk) (b : Chunk) :
    sumRemaining (l ++ [b]) = sumRemaining l + Chunk.remaining b := by
  simp [sumRemaining_append, sumRemaining]

theorem inv_fromChunks (l : List Chunk) : (fromChunks l).Inv := rfl

theorem inv_new : new.Inv := rfl

theorem inv_push_back (q : BufVecDeque) (h : q.Inv) (b : Chunk) :
    (q.push_back b).Inv := by
  unfold Inv push_back at *
  simp [sumRemaining_concat, h]

theorem inv_pop_back (q : BufVecDeque) (h : q.Inv) : q.pop_back.Inv := by
  unfold Inv pop_back at *
  cases hl : q.deque.getLast? with
  | none => simpa using h
  | some b =>
    have hne : q.deque ≠ [] := by
      intro hnil
      rw [hnil] at hl
      simp at hl
    have hq : q.deque.dropLast ++ [b] = q.deque := by
      have h2 := List.dropLast_append_getLast hne
      rw [List.getLast?_eq_getLast q.deque hne, Option.some_inj] at hl
      rw [← hl]
      exact h2
    simp only
    rw [← hq] at h
    rw [sumRemaining_concat] at h
    omega

theorem inv_backMutApply (q : BufVecDeque) (h : q.Inv) (f : Chunk → Chunk) :
    (backMutApply f q).Inv := by
  unfold Inv backMutApply at *
  cases hl : q.deque.getLast? with
  | none => simpa using h
  | some b =>
    have hne : q.deque ≠ [] := by
      intro hnil
      rw [hnil] at hl
      simp at hl
    have hq : q.deque.dropLast ++ [b] = q.deque := by
      have h2 := List.dropLast_append_getLast hne
      rw [List.getLast?_eq_getLast q.deque hne, Option.some_inj] at hl
      rw [← hl]
      exact h2
    simp only
    rw [← hq, sumRemaining_concat] at h
    rw [sumRemaining_concat]
    split <;> omega

/-- All bytes of a chunk list, front chunk first. -/
def flattenChunks : List Chunk → List Nat
  | [] => []
  | c :: rest => c ++ flattenChunks rest

@[simp]
theorem flattenChunks_nil : flattenChunks [] = [] := rfl

@[simp]
theorem flattenChunks_cons (c : Chunk) (l : List Chunk) :
    flattenChunks (c :: l) = c ++ flattenChunks l := rfl

theorem length_flattenChunks (l : List Chunk) :
    (flattenChunks l).length = sumRemaining l := by
  induction l with
  | nil => rfl
  | cons c rest ih => simp [Chunk.remaining, ih]

theorem advanceLoop_isSome (d : List Chunk) (cnt : Nat) :
    (advanceLoop d cnt).isSome ↔ cnt ≤ sumRemaining d := by
  induction d generalizing cnt with
  | nil =>
    unfold advanceLoop
    by_cases h : cnt = 0 <;> simp [h]
  | cons front rest ih =>
    unfold advanceLoop
    by_cases h0 : cnt = 0
    · simp [h0]
    · by_cases hlt : cnt < Chunk.remaining front
      · simp [h0, hlt]
        omega
      · simp [h0, hlt, ih]
        omega

theorem advanceLoop_spec (d : List Chunk) (cnt : Nat) (d' : List Chunk)
    (hle : cnt ≤ sumRemaining d) (h : advanceLoop d cnt = some d') :
    flattenChunks d' = (flattenChunks d).drop cnt ∧
      sumRemaining d' = sumRemaining d - cnt := by
  induction d generalizing cnt with
  | nil =>
    have hz : cnt = 0 := by simpa using hle
    unfold advanceLoop at h
    simp [hz] at h
    subst h
    simp [hz]
  | cons front rest ih =>
    by_cases h0 : cnt = 0
    · unfold advanceLoop at h
      simp [h0] at h
      subst h
      simp [h0]
    · by_cases hlt : cnt < Chunk.remaining front
      · unfold advanceLoop at h
        simp [h0, hlt] at h
        subst h
        constructor
        · simp only [flattenChunks_cons, Chunk.advanceChunk]
          rw [List.drop_append_eq_append_drop]
          have hz : cnt - front.length = 0 := by
            have : cnt < front.length := hlt
            omega
          rw [hz]
          simp
        · simp only [sumRemaining_cons, Chunk.remaining, Chunk.advanceChunk,
            List.length_drop] at hlt hle ⊢
          omega
      · unfold advanceLoop at h
        simp [h0, hlt] at h
        have hfr : Chunk.remaining front ≤ cnt := by omega
        have hle' : cnt - Chunk.remaining front ≤ sumRemaining rest := by
          simp only [sumRemaining_cons] at hle
          omega
        obtain ⟨h1, h2⟩ := ih (cnt - Chunk.remaining front) hle' h
        constructor
        · rw [h1]
          simp only [flattenChunks_cons]
          rw [List.drop_append_eq_append_drop]
          have hnil : List.drop cnt front = [] :=
            List.drop_eq_nil_of_le (by exact hfr)
          rw [hnil]
          simp [Chunk.remaining] at hfr ⊢
        · simp only [sumRemaining_cons] at *
          omega

theorem inv_advance (q : BufVecDeque) (cnt : Nat) (q' : BufVecDeque)
    (hinv : q.Inv) (h : q.advance cnt = some q') : q'.Inv := by
  unfold advance at h
  by_cases hle : cnt ≤ q.len
  · simp [hle] at h
    obtain ⟨d', hd', hq'⟩ := h
    have hle' : cnt ≤ sumRemaining q.deque := by
      unfold Inv at hinv
      omega
    obtain ⟨_, h2⟩ := advanceLoop_spec q.deque cnt d' hle' hd'
    unfold Inv at *
    subst hq'
    simp
    omega
  · simp [hle] at h

theorem inv_applyOp (q q' : BufVecDeque) (op : Op)
    (hinv : q.Inv) (h : applyOp q op = some q') : q'.Inv := by
  cases op with
  | push c =>
    simp [applyOp] at h
    subst h
    exact inv_push_back q hinv c
  | pop =>
    simp [applyOp] at h
    subst h
    exact inv_pop_back q hinv
  | adv cnt =>
    simp [applyOp] at h
    exact inv_advance q cnt q' hinv h
  | backMut f =>
    simp [applyOp] at h
    subst h
    exact inv_backMutApply q hinv f

theorem inv_foldlM (ops : List Op) (q q' : BufVecDeque)
    (hinv : q.Inv) (h : ops.foldlM applyOp q = some q') : q'.Inv := by
  induction ops generalizing q with
  | nil =>
    simp [List.foldlM] at h
    subst h
    exact hinv
  | cons op rest ih =>
    simp only [List.foldlM] at h
    cases hop : applyOp q op with
    | none => rw [hop] at h; simp at h
    | some q1 =>
      rw [hop] at h
      simp only [Option.bind_eq_bind, Option.some_bind] at h
      exact ih q1 (inv_applyOp q q1 op hinv hop) h

/-- C1: for every sequence of Chunk Queue operations (push_back, pop_back,
advance, back-chunk mutation) starting from construction from an existing
collection, the stored total length equals the sum of the remaining byte
counts of all chunks in the queue. -/
theorem total_len_invariant_all_ops (init : List Chunk) (ops : List Op)
    (q : BufVecDeque) (h : runOps init ops = some q) :
    q.len = sumRemaining q.deque := by
  have : q.Inv := inv_foldlM ops (fromChunks init) q (inv_fromChunks init) h
  exact this

/-- Witness for C1 at a concrete operation sequence exercising push,
back-mutation, advance and pop. -/
theorem total_len_invariant_all_ops_witness :
    runOps [[1, 2], [3]]
        [.push [4, 5], .backMut (fun c => c ++ [6]), .adv 3, .pop] =
        some ⟨[], 0⟩ ∧
      (⟨[], 0⟩ : BufVecDeque).len = sumRemaining (⟨[], 0⟩ : BufVecDeque).deque :=
  ⟨by decide, total_len_invariant_all_ops [[1, 2], [3]]
    [.push [4, 5], .backMut (fun c => c ++ [6]), .adv 3, .pop] ⟨[], 0⟩ (by decide)⟩

/-- C7: releasing the scoped back-chunk mutation handle reconciles the
queue's total length by exactly the length delta of the back chunk and
places the chunk back at the rear of the queue, for an arbitrary mutation
`f` (the mutation scope ends by `Drop`, i.e. on every exit path). -/
theorem backMutApply_reconciles_len (q : BufVecDeque) (f : Chunk → Chunk)
    (l : List Chunk) (b : Chunk) (hq : q.deque = l ++ [b]) (hinv : q.Inv) :
    (backMutApply f q).deque = l ++ [f b] ∧
      ((backMutApply f q).len : ℤ) =
        (q.len : ℤ) + (Chunk.remaining (f b) : ℤ) - (Chunk.remaining b : ℤ) := by
  have h1 : q.deque.getLast? = some b := by
    rw [hq]; exact List.getLast?_concat l
  have h2 : q.deque.dropLast = l := by
    rw [hq]; exact List.dropLast_concat
  unfold Inv at hinv
  rw [hq, sumRemaining_concat] at hinv
  unfold backMutApply
  rw [h1]
  simp only [h2]
  refine ⟨by simp, ?_⟩
  split <;> push_cast <;> omega

/-- Witness for C7: growing the back chunk `[2, 3]` by one byte. -/
theorem backMutApply_reconciles_len_witness :
    (⟨[[1], [2, 3]], 3⟩ : BufVecDeque).deque = [[1]] ++ [[2, 3]] ∧
      (⟨[[1], [2, 3]], 3⟩ : BufVecDeque).Inv ∧
      ((backMutApply (fun c => c ++ [7]) ⟨[[1], [2, 3]], 3⟩).deque =
          [[1]] ++ [[2, 3] ++ [7]] ∧
        ((backMutApply (fun c => c ++ [7]) ⟨[[1], [2, 3]], 3⟩).len : ℤ) =
          ((⟨[[1], [2, 3]], 3⟩ : BufVecDeque).len : ℤ) +
            (Chunk.remaining ([2, 3] ++ [7]) : ℤ) - (Chunk.remaining [2, 3] : ℤ)) :=
  ⟨rfl, by decide,
    backMutApply_reconciles_len ⟨[[1], [2, 3]], 3⟩ (fun c => c ++ [7])
      [[1]] [2, 3] rfl (by decide)⟩

/-- C8: for `cnt` within the total length, `advance cnt` removes exactly
the first `cnt` bytes: the flattened contents afterwards are the original
contents with the first `cnt` bytes dropped, the length drops by `cnt`,
and a front chunk larger than `cnt` is sliced in place. -/
theorem advance_drops_front (q : BufVecDeque) (cnt : Nat) (hinv : q.Inv)
    (hle : cnt ≤ q.len) :
    ∃ q', q.advance cnt = some q' ∧
      flattenChunks q'.deque = (flattenChunks q.deque).drop cnt ∧
      q'.len = q.len - cnt ∧
      ∀ front rest, q.deque = front :: rest → 0 < cnt →
        cnt < Chunk.remaining front →
        q'.deque = Chunk.advanceChunk front cnt :: rest := by
  have hle' : cnt ≤ sumRemaining q.deque := hinv ▸ hle
  have hsome : (advanceLoop q.deque cnt).isSome :=
    (advanceLoop_isSome _ _).mpr hle'
  obtain ⟨d', hd'⟩ := Option.isSome_iff_exists.mp hsome
  refine ⟨⟨d', q.len - cnt⟩, ?_, ?_, rfl, ?_⟩
  · unfold advance
    simp [hle, hd']
  · exact (advanceLoop_spec q.deque cnt d' hle' hd').1
  · intro front rest hfr h0 hlt
    rw [hfr] at hd'
    unfold advanceLoop at hd'
    have h0' : cnt ≠ 0 := by omega
    simp only [h0', if_false, if_pos hlt] at hd'
    simp only [Option.some_inj] at hd'
    simp only
    rw [← hd']

/-- Witness for C8 at `cnt = 1` with front chunk `[1, 2]`. -/
theorem advance_drops_front_witness :
    (⟨[[1, 2], [3]], 3⟩ : BufVecDeque).Inv ∧ 1 ≤ (⟨[[1, 2], [3]], 3⟩ : BufVecDeque).len ∧
      ∃ q', (⟨[[1, 2], [3]], 3⟩ : BufVecDeque).advance 1 = some q' ∧
        flattenChunks q'.deque =
          (flattenChunks (⟨[[1, 2], [3]], 3⟩ : BufVecDeque).deque).drop 1 ∧
        q'.len = (⟨[[1, 2], [3]], 3⟩ : BufVecDeque).len - 1 ∧
        ∀ front rest, (⟨[[1, 2], [3]], 3⟩ : BufVecDeque).deque = front :: rest →
          0 < 1 → 1 < Chunk.remaining front →
          q'.deque = Chunk.advanceChunk front 1 :: rest :=
  ⟨by decide, by decide, advance_drops_front ⟨[[1, 2], [3]], 3⟩ 1 (by decide) (by decide)⟩

/-- C9: under the length invariant, `advance cnt` succeeds (assertion
passes and the internal unwraps never fail) exactly when `cnt` does not
exceed the stored total length. -/
theorem advance_isSome_iff (q : BufVecDeque) (cnt : Nat) (hinv : q.Inv) :
    (q.advance cnt).isSome ↔ cnt ≤ q.len := by
  unfold advance
  by_cases hle : cnt ≤ q.len
  · simp only [if_pos hle]
    have h2 := advanceLoop_isSome q.deque cnt
    unfold Inv at hinv
    cases h : advanceLoop q.deque cnt with
    | none =>
      rw [h] at h2
      simp at h2
      simp [h]
      omega
    | some d =>
      rw [h] at h2
      simp at h2
      simp [h]
      omega
  · simp [hle]

/-- Witness for C9: a queue satisfying the invariant, with `advance`
succeeding at `cnt = 2` (within the length). -/
theorem advance_isSome_iff_witness :
    (⟨[[5], [6, 7]], 3⟩ : BufVecDeque).Inv ∧
      (((⟨[[5], [6, 7]], 3⟩ : BufVecDeque).advance 2).isSome ↔
        2 ≤ (⟨[[5], [6, 7]], 3⟩ : BufVecDeque).len) :=
  ⟨by decide, advance_isSome_iff ⟨[[5], [6, 7]], 3⟩ 2 (by decide)⟩

/-- C10: taking the back-mutation handle and releasing it without mutating
is the identity on the queue (same chunks, same order, same total length);
on an empty queue `back_mut` returns `None` and the queue is unchanged. -/
theorem backMutApply_id (q : BufVecDeque) : backMutApply (fun c => c) q = q := by
  unfold backMutApply
  cases hl : q.deque.getLast? with
  | none => rfl
  | some b =>
    have hne : q.deque ≠ [] := by
      intro hnil
      rw [hnil] at hl
      simp at hl
    have hq : q.deque.dropLast ++ [b] = q.deque := by
      have h2 := List.dropLast_append_getLast hne
      rw [List.getLast?_eq_getLast q.deque hne, Option.some_inj] at hl
      rw [← hl]
      exact h2
    simp only
    cases q with
    | mk d len =>
      simp only at hq ⊢
      rw [BufVecDeque.mk.injEq]
      exact ⟨hq, by simp⟩

end BufVecDeque

/-!
Part 2: flow-control window accounting and the outbound pump.

The Window Tracker, Outbound Pump and Stream Table implementations are
not among the sources of this repository (only their tests are), so the
definitions below are modelled from the spec (§3, §4.2, §4.3, §4.5) and
are exercised against the behaviour asserted by
`httpbis-test/tests/client.rs` (`sink_poll`, `sink_reset_by_peer`).
-/

/-- Modelled from the spec: the protocol-maximum flow-control window, a
31-bit signed ceiling. -/
def maxWindow : Nat := 2 ^ 31 - 1

/-- Modelled from the spec: the Window Tracker (outbound side), missing
from the sources.  `available` is peer-granted credit (never negative
under protocol-legal updates); `inFlightAdjustment` is the count of bytes
already handed to the pump but not yet settled against `available`. -/
structure WindowTracker where
  available : Nat
  inFlightAdjustment : Nat
deriving DecidableEq

namespace WindowTracker

/-- Modelled from the spec: the in-flight-adjusted view of the outbound
window (`pump_out_window_size` in the tests); may be negative. -/
def pumpView (t : WindowTracker) : Int :=
  (t.available : Int) - (t.inFlightAdjustment : Int)

/-- Modelled from the spec: `grant` — peer WINDOW_UPDATE credit, failing
with `FlowControlOverflow` (`none`) past the 31-bit ceiling. -/
def grant (d : Nat) (t : WindowTracker) : Option WindowTracker :=
  if t.available + d ≤ maxWindow then
    some { t with available := t.available + d }
  else
    none

/-- Modelled from the spec: `commit n` — consume `n` bytes of credit for
an outbound send; fails without mutation when the credit is insufficient,
otherwise decrements `available` and settles `n` in-flight bytes. -/
def commit (n : Nat) (t : WindowTracker) : Option WindowTracker :=
  if n ≤ t.available then
    some ⟨t.available - n, t.inFlightAdjustment - n⟩
  else
    none

/-- Modelled from the spec: bytes handed to the pump ahead of settlement. -/
def enqueue (n : Nat) (t : WindowTracker) : WindowTracker :=
  { t with inFlightAdjustment := t.inFlightAdjustment + n }

/-- Modelled from the spec: `reset_in_flight` — discard the in-flight
adjustment on stream reset so the view tracks `available` exactly. -/
def resetInFlight (t : WindowTracker) : WindowTracker :=
  { t with inFlightAdjustment := 0 }

end WindowTracker

/-- Modelled from the spec: the outbound-pump state for one stream over
one connection — the connection-level and stream-level outbound Window
Trackers, the queued-but-unsent bytes, the bytes already handed to the
framing collaborator, the negotiated max frame size, and whether the
stream is still live (a RST_STREAM kills it). -/
structure FlowState where
  conn : WindowTracker
  stream : WindowTracker
  queue : List Nat
  delivered : List Nat
  maxFrameSize : Nat
  streamAlive : Bool
deriving DecidableEq

namespace FlowState

/-- Modelled from the spec: the size of the next DATA unit —
`min(negotiated_max_frame_size, queued, connection-available,
stream-available)`. -/
def frameSize (s : FlowState) : Nat :=
  min s.maxFrameSize
    (min s.queue.length (min s.conn.available s.stream.available))

/-- Modelled from the spec: one drain step of the Outbound Pump: when a
non-empty unit is permitted, commit it against BOTH the connection and the
stream tracker and emit it; otherwise no step. -/
def drainStep (s : FlowState) : Option FlowState :=
  let n := frameSize s
  if n = 0 then none
  else
    match s.conn.commit n, s.stream.commit n with
    | some c, some t =>
      some { s with
        conn := c
        stream := t
        queue := s.queue.drop n
        delivered := s.delivered ++ s.queue.take n }
    | _, _ => none

/-- Fuelled iteration of `drainStep` (each successful step consumes at
least one queued byte, so `queue.length` fuel always suffices). -/
def drainFuel : Nat → FlowState → FlowState
  | 0, s => s
  | k + 1, s =>
    match drainStep s with
    | none => s
    | some s' => drainFuel k s'

/-- Modelled from the spec: drain the queue as far as the windows allow. -/
def drain (s : FlowState) : FlowState := drainFuel s.queue.length s

/-- Modelled from the spec: the sink accepts an arbitrary-length payload,
records it as in-flight on both trackers, and the pump drains as far as
currently permitted.  On a dead (reset) stream the payload is discarded. -/
def sendData (p : List Nat) (s : FlowState) : FlowState :=
  if s.streamAlive then
    drain { s with
      queue := s.queue ++ p
      conn := s.conn.enqueue p.length
      stream := s.stream.enqueue p.length }
  else s

/-- Modelled from the spec: a connection-scoped WINDOW_UPDATE grows the
connection tracker and wakes the pump. -/
def windowUpdateConn (d : Nat) (s : FlowState) : FlowState :=
  match s.conn.grant d with
  | some c => drain { s with conn := c }
  | none => s

/-- Modelled from the spec: a stream-scoped WINDOW_UPDATE grows the
stream tracker and wakes the pump. -/
def windowUpdateStream (d : Nat) (s : FlowState) : FlowState :=
  match s.stream.grant d with
  | some t => drain { s with stream := t }
  | none => s

/-- Modelled from the spec: a RST_STREAM aborts draining, discards the
queued bytes, resets the stream tracker's in-flight adjustment, and
un-books the discarded bytes from the connection tracker. -/
def rstStream (s : FlowState) : FlowState :=
  { s with
    queue := []
    streamAlive := false
    stream := s.stream.resetInFlight
    conn := { s.conn with
      inFlightAdjustment := s.conn.inFlightAdjustment - s.queue.length } }

/-- Poll result of the sink. -/
inductive PollResult where
  | ready
  | pending
deriving DecidableEq

/-- Modelled from the spec: the pump reports not-ready exactly when bytes
remain queued (after draining, queued bytes mean exhausted credit). -/
def poll (s : FlowState) : PollResult :=
  if s.queue.isEmpty then .ready else .pending

/-- State invariant of the single-stream pump model: the in-flight
adjustments track the queued bytes, frames are non-trivial, and a dead
stream holds no queued bytes. -/
def FlowInv (s : FlowState) : Prop :=
  s.conn.inFlightAdjustment = s.queue.length ∧
    s.stream.inFlightAdjustment = s.queue.length ∧
    1 ≤ s.maxFrameSize ∧
    (s.streamAlive = false → s.queue = [])

instance (s : FlowState) : Decidable s.FlowInv := by
  unfold FlowInv; infer_instance

/-- Initial pump state: fresh stream, default windows `w`, max frame
size `mf`. -/
def initFlowState (w mf : Nat) : FlowState :=
  ⟨⟨w, 0⟩, ⟨w, 0⟩, [], [], mf, true⟩

/-- Total number of bytes the pump may deliver right now: queue length
capped by both outbound windows. -/
def sendNow (s : FlowState) : Nat :=
  min s.queue.length (min s.conn.available s.stream.available)

theorem frameSize_eq_min (s : FlowState) :
    frameSize s = min s.maxFrameSize (sendNow s) := rfl

theorem frameSize_le_conn (s : FlowState) :
    frameSize s ≤ s.conn.available := by
  unfold frameSize; omega

theorem frameSize_le_stream (s : FlowState) :
    frameSize s ≤ s.stream.available := by
  unfold frameSize; omega

theorem frameSize_le_queue (s : FlowState) :
    frameSize s ≤ s.queue.length := by
  unfold frameSize; omega

theorem frameSize_le_maxFrame (s : FlowState) :
    frameSize s ≤ s.maxFrameSize := by
  unfold frameSize; omega

theorem drainStep_eq (s : FlowState) (h : frameSize s ≠ 0) :
    drainStep s = some { s with
      conn := ⟨s.conn.available - frameSize s,
        s.conn.inFlightAdjustment - frameSize s⟩
      stream := ⟨s.stream.available - frameSize s,
        s.stream.inFlightAdjustment - frameSize s⟩
      queue := s.queue.drop (frameSize s)
      delivered := s.delivered ++ s.queue.take (frameSize s) } := by
  unfold drainStep
  simp only [WindowTracker.commit, if_pos (frameSize_le_conn s),
    if_pos (frameSize_le_stream s), if_neg h]

theorem drainStep_none (s : FlowState) (h : frameSize s = 0) :
    drainStep s = none := by
  unfold drainStep
  simp [h]

theorem drainFuel_spec (k : Nat) (s : FlowState) (hk : s.queue.length ≤ k)
    (hmf : 1 ≤ s.maxFrameSize) :
    drainFuel k s = { s with
      conn := ⟨s.conn.available - sendNow s,
        s.conn.inFlightAdjustment - sendNow s⟩
      stream := ⟨s.stream.available - sendNow s,
        s.stream.inFlightAdjustment - sendNow s⟩
      queue := s.queue.drop (sendNow s)
      delivered := s.delivered ++ s.queue.take (sendNow s) } := by
  induction k generalizing s with
  | zero =>
    have hq : s.queue = [] := by
      cases hqq : s.queue with
      | nil => rfl
      | cons a l => rw [hqq] at hk; simp at hk
    have hT : sendNow s = 0 := by unfold sendNow; rw [hq]; simp
    rw [hT]
    cases s with
    | mk c t q d mf al =>
      simp only at hq
      subst hq
      simp [drainFuel]
  | succ k ih =>
    by_cases hT : sendNow s = 0
    · have hfz : frameSize s = 0 := by
        rw [frameSize_eq_min, hT]; simp
      have hstep := drainStep_none s hfz
      rw [hT]
      cases s with
      | mk c t q d mf al =>
        cases c with
        | mk ca cf =>
          cases t with
          | mk ta tf =>
            simp only [drainFuel, hstep]
            simp
    · have hfz : frameSize s ≠ 0 := by
        rw [frameSize_eq_min]
        omega
      have hstep := drainStep_eq s hfz
      have hfq := frameSize_le_queue s
      have hfc := frameSize_le_conn s
      have hfs := frameSize_le_stream s
      have hfT : frameSize s ≤ sendNow s := by
        rw [frameSize_eq_min]; omega
      set n := frameSize s with hn
      set s₁ : FlowState := { s with
        conn := ⟨s.conn.available - n, s.conn.inFlightAdjustment - n⟩
        stream := ⟨s.stream.available - n, s.stream.inFlightAdjustment - n⟩
        queue := s.queue.drop n
        delivered := s.delivered ++ s.queue.take n } with hs₁
      have hfuel : drainFuel (k + 1) s = drainFuel k s₁ := by
        simp only [drainFuel, hstep]
      have hq₁ : s₁.queue.length ≤ k := by
        simp only [hs₁, List.length_drop]
        omega
      have hmf₁ : 1 ≤ s₁.maxFrameSize := hmf
      have hsn₁ : sendNow s₁ = sendNow s - n := by
        simp only [sendNow, hs₁, List.length_drop]
        simp only [sendNow] at hT ⊢
        omega
      rw [hfuel, ih s₁ hq₁ hmf₁, hsn₁]
      simp only [hs₁]
      congr 1
      · congr 1 <;> omega
      · congr 1 <;> omega
      · rw [List.drop_drop]
        congr 1
        simp only [sendNow] at hT ⊢
        omega
      · rw [List.append_assoc]
        congr 1
        have : sendNow s = n + (sendNow s - n) := by omega
        rw [this, List.take_add]
        congr 2
        omega

theorem drain_spec (s : FlowState) (hmf : 1 ≤ s.maxFrameSize) :
    drain s = { s with
      conn := ⟨s.conn.available - sendNow s,
        s.conn.inFlightAdjustment - sendNow s⟩
      stream := ⟨s.stream.available - sendNow s,
        s.stream.inFlightAdjustment - sendNow s⟩
      queue := s.queue.drop (sendNow s)
      delivered := s.delivered ++ s.queue.take (sendNow s) } :=
  drainFuel_spec s.queue.length s (Nat.le_refl _) hmf

theorem sendData_eq (s : FlowState) (p : List Nat) (T : Nat)
    (hal : s.streamAlive = true) (hmf : 1 ≤ s.maxFrameSize)
    (hT : T = min (s.queue.length + p.length)
      (min s.conn.available s.stream.available)) :
    sendData p s = { s with
      conn := ⟨s.conn.available - T, s.conn.inFlightAdjustment + p.length - T⟩
      stream := ⟨s.stream.available - T,
        s.stream.inFlightAdjustment + p.length - T⟩
      queue := (s.queue ++ p).drop T
      delivered := s.delivered ++ (s.queue ++ p).take T } := by
  unfold sendData
  rw [if_pos hal]
  rw [drain_spec _ (by simpa using hmf)]
  have hsn : sendNow { s with
      queue := s.queue ++ p
      conn := s.conn.enqueue p.length
      stream := s.stream.enqueue p.length } = T := by
    simp [sendNow, WindowTracker.enqueue, hT]
  rw [hsn]
  simp [WindowTracker.enqueue]

theorem windowUpdateConn_eq (s : FlowState) (d T : Nat)
    (hof : s.conn.available + d ≤ maxWindow) (hmf : 1 ≤ s.maxFrameSize)
    (hT : T = min s.queue.length
      (min (s.conn.available + d) s.stream.available)) :
    windowUpdateConn d s = { s with
      conn := ⟨s.conn.available + d - T, s.conn.inFlightAdjustment - T⟩
      stream := ⟨s.stream.available - T, s.stream.inFlightAdjustment - T⟩
      queue := s.queue.drop T
      delivered := s.delivered ++ s.queue.take T } := by
  unfold windowUpdateConn WindowTracker.grant
  rw [if_pos hof]
  simp only
  rw [drain_spec _ (by simpa using hmf)]
  have hsn : sendNow { s with
      conn := ⟨s.conn.available + d, s.conn.inFlightAdjustment⟩ } = T := by
    simp [sendNow, hT]
  rw [hsn]

theorem windowUpdateStream_eq (s : FlowState) (d T : Nat)
    (hof : s.stream.available + d ≤ maxWindow) (hmf : 1 ≤ s.maxFrameSize)
    (hT : T = min s.queue.length
      (min s.conn.available (s.stream.available + d))) :
    windowUpdateStream d s = { s with
      conn := ⟨s.conn.available - T, s.conn.inFlightAdjustment - T⟩
      stream := ⟨s.stream.available + d - T, s.stream.inFlightAdjustment - T⟩
      queue := s.queue.drop T
      delivered := s.delivered ++ s.queue.take T } := by
  unfold windowUpdateStream WindowTracker.grant
  rw [if_pos hof]
  simp only
  rw [drain_spec _ (by simpa using hmf)]
  have hsn : sendNow { s with
      stream := ⟨s.stream.available + d, s.stream.inFlightAdjustment⟩ } = T := by
    simp [sendNow, hT]
  rw [hsn]

theorem poll_eq_pending (s : FlowState) (h : s.queue ≠ []) :
    poll s = .pending := by
  unfold poll
  simp [List.isEmpty_iff, h]

theorem poll_eq_ready (s : FlowState) (h : s.queue = []) :
    poll s = .ready := by
  unfold poll
  simp [List.isEmpty_iff, h]

theorem take_chain (p : List Nat) (a b c : Nat) (h : p.length ≤ a + b + c) :
    p.take a ++ ((p.drop a).take b ++ ((p.drop a).drop b).take c) = p := by
  rw [← List.take_add, ← List.take_add]
  exact List.take_of_length_le (by omega)

/-- C2: a payload larger than the currently available outbound window
`W = min(conn, stream)` is split at the window boundary: exactly the
permitted prefix is delivered, the remainder stays queued, the sink polls
not-ready, the windows satisfy `window_before - sent = window_after` at
both connection and stream scope, and once WINDOW_UPDATEs replenishing
both scopes are processed the remainder is delivered automatically. -/
theorem sink_splits_at_window_boundary
    (s : FlowState) (p : List Nat) (W gc gs : Nat)
    (hinv : s.FlowInv) (hal : s.streamAlive = true) (hq : s.queue = [])
    (hW : W = min s.conn.available s.stream.available)
    (hbig : W < p.length)
    (hofc : s.conn.available - W + gc ≤ maxWindow)
    (hofs : s.stream.available - W + gs ≤ maxWindow)
    (hgc : p.length - W ≤ s.conn.available - W + gc)
    (hgs : p.length - W ≤ s.stream.available - W + gs) :
    (sendData p s).delivered = s.delivered ++ p.take W ∧
    (sendData p s).queue = p.drop W ∧
    poll (sendData p s) = .pending ∧
    (sendData p s).conn.available + W = s.conn.available ∧
    (sendData p s).stream.available + W = s.stream.available ∧
    (windowUpdateStream gs (windowUpdateConn gc (sendData p s))).queue = [] ∧
    (windowUpdateStream gs (windowUpdateConn gc (sendData p s))).delivered =
      s.delivered ++ p ∧
    poll (windowUpdateStream gs (windowUpdateConn gc (sendData p s))) =
      .ready := by
  obtain ⟨hic, hit, hmf, _⟩ := hinv
  have hWc : W ≤ s.conn.available := by omega
  have hWs : W ≤ s.stream.available := by omega
  have h1 := sendData_eq s p W hal hmf (by simp [hq]; omega)
  rw [hq] at h1
  simp only [List.nil_append, List.length_nil, Nat.zero_add] at h1
  rw [h1]
  simp only
  refine ⟨trivial, trivial, ?_, by omega, by omega, ?_⟩
  · apply poll_eq_pending
    simp only
    rw [Ne, List.drop_eq_nil_iff]
    omega
  · -- the resumption part: both WINDOW_UPDATEs drain the whole remainder
    have h2 := windowUpdateConn_eq
      { s with
        conn := ⟨s.conn.available - W, s.conn.inFlightAdjustment + p.length - W⟩
        stream := ⟨s.stream.available - W,
          s.stream.inFlightAdjustment + p.length - W⟩
        queue := p.drop W
        delivered := s.delivered ++ p.take W }
      gc
      (min (p.length - W) (min (s.conn.available - W + gc)
        (s.stream.available - W)))
      (by simpa using hofc) (by simpa using hmf)
      (by simp [List.length_drop])
    rw [h2]
    simp only
    set T1 := min (p.length - W) (min (s.conn.available - W + gc)
      (s.stream.available - W)) with hT1
    have h3 := windowUpdateStream_eq
      { s with
        conn := ⟨s.conn.available - W + gc - T1,
          s.conn.inFlightAdjustment + p.length - W - T1⟩
        stream := ⟨s.stream.available - W - T1,
          s.stream.inFlightAdjustment + p.length - W - T1⟩
        queue := (p.drop W).drop T1
        delivered := s.delivered ++ p.take W ++ (p.drop W).take T1 }
      gs
      ((p.drop W).drop T1).length
      (by simp only; omega) (by simpa using hmf)
      (by simp only [List.length_drop]; omega)
    rw [h3]
    refine ⟨?_, ?_, ?_⟩
    · exact List.drop_length _
    · simp only [List.append_assoc]
      congr 1
      rw [List.take_length, List.take_append_drop, List.take_append_drop]
    · apply poll_eq_ready
      exact List.drop_length _

/-- Concrete pump state for the C2 witness: connection window 3, stream
window 5, max frame size 2, idle sink. -/
def witState : FlowState := ⟨⟨3, 0⟩, ⟨5, 0⟩, [], [], 2, true⟩

/-- Concrete six-byte payload for the C2 witness (larger than the
available window `min 3 5 = 3`). -/
def witPayload : List Nat := [1, 2, 3, 4, 5, 6]

/-- Witness for C2: payload of 6 bytes against windows (conn 3, stream 5),
replenished by WINDOW_UPDATEs of 4 at each scope. -/
theorem sink_splits_at_window_boundary_witness :
    witState.FlowInv ∧ witState.streamAlive = true ∧ witState.queue = [] ∧
    3 = min witState.conn.available witState.stream.available ∧
    3 < witPayload.length ∧
    witState.conn.available - 3 + 4 ≤ maxWindow ∧
    witState.stream.available - 3 + 4 ≤ maxWindow ∧
    witPayload.length - 3 ≤ witState.conn.available - 3 + 4 ∧
    witPayload.length - 3 ≤ witState.stream.available - 3 + 4 ∧
    ((sendData witPayload witState).delivered =
        witState.delivered ++ witPayload.take 3 ∧
      (sendData witPayload witState).queue = witPayload.drop 3 ∧
      poll (sendData witPayload witState) = .pending ∧
      (sendData witPayload witState).conn.available + 3 =
        witState.conn.available ∧
      (sendData witPayload witState).stream.available + 3 =
        witState.stream.available ∧
      (windowUpdateStream 4 (windowUpdateConn 4
        (sendData witPayload witState))).queue = [] ∧
      (windowUpdateStream 4 (windowUpdateConn 4
        (sendData witPayload witState))).delivered =
        witState.delivered ++ witPayload ∧
      poll (windowUpdateStream 4 (windowUpdateConn 4
        (sendData witPayload witState))) = .ready) :=
  ⟨by decide, rfl, rfl, by decide, by decide, by decide, by decide,
    by decide, by decide,
    sink_splits_at_window_boundary witState witPayload 3 4 4 (by decide)
      rfl rfl (by decide) (by decide) (by decide) (by decide) (by decide)
      (by decide)⟩

/-- C3: a RST_STREAM after a partially-drained send restores both Window
Trackers so the in-flight-adjusted view equals the peer-granted available
credit exactly (zero pending adjustment), `available` itself is untouched,
and subsequent sends on the connection still see the real remaining
credit (no permanently poisoned deficit). -/
theorem rst_resets_in_flight (s : FlowState) (hinv : s.FlowInv) :
    (rstStream s).stream.inFlightAdjustment = 0 ∧
    (rstStream s).stream.pumpView = ((rstStream s).stream.available : Int) ∧
    (rstStream s).conn.inFlightAdjustment = 0 ∧
    (rstStream s).conn.pumpView = ((rstStream s).conn.available : Int) ∧
    (rstStream s).conn.available = s.conn.available ∧
    ∀ p, (sendData p (rstStream s)).conn.pumpView =
      ((sendData p (rstStream s)).conn.available : Int) := by
  obtain ⟨hic, hit, hmf, _⟩ := hinv
  have hsend : ∀ p, sendData p (rstStream s) = rstStream s := by
    intro p
    unfold sendData rstStream
    simp
  refine ⟨?_, ?_, ?_, ?_, ?_, ?_⟩
  · simp [rstStream, WindowTracker.resetInFlight]
  · simp [rstStream, WindowTracker.resetInFlight, WindowTracker.pumpView]
  · simp [rstStream]
    omega
  · simp [rstStream, WindowTracker.pumpView, hic]
  · simp [rstStream]
  · intro p
    rw [hsend p]
    simp [rstStream, WindowTracker.pumpView, hic]

/-- Witness for C3: a mid-drained send (5 queued bytes, both windows
exhausted, in-flight adjustment 5) interrupted by RST_STREAM. -/
theorem rst_resets_in_flight_witness :
    (⟨⟨0, 5⟩, ⟨0, 5⟩, [9, 9, 9, 9, 9], [], 16384, true⟩ : FlowState).FlowInv ∧
      ((rstStream ⟨⟨0, 5⟩, ⟨0, 5⟩, [9, 9, 9, 9, 9], [], 16384, true⟩).stream.inFlightAdjustment = 0 ∧
        (rstStream ⟨⟨0, 5⟩, ⟨0, 5⟩, [9, 9, 9, 9, 9], [], 16384, true⟩).stream.pumpView =
          ((rstStream ⟨⟨0, 5⟩, ⟨0, 5⟩, [9, 9, 9, 9, 9], [], 16384, true⟩).stream.available : Int) ∧
        (rstStream ⟨⟨0, 5⟩, ⟨0, 5⟩, [9, 9, 9, 9, 9], [], 16384, true⟩).conn.inFlightAdjustment = 0 ∧
        (rstStream ⟨⟨0, 5⟩, ⟨0, 5⟩, [9, 9, 9, 9, 9], [], 16384, true⟩).conn.pumpView =
          ((rstStream ⟨⟨0, 5⟩, ⟨0, 5⟩, [9, 9, 9, 9, 9], [], 16384, true⟩).conn.available : Int) ∧
        (rstStream ⟨⟨0, 5⟩, ⟨0, 5⟩, [9, 9, 9, 9, 9], [], 16384, true⟩).conn.available =
          (⟨⟨0, 5⟩, ⟨0, 5⟩, [9, 9, 9, 9, 9], [], 16384, true⟩ : FlowState).conn.available ∧
        ∀ p, (sendData p (rstStream ⟨⟨0, 5⟩, ⟨0, 5⟩, [9, 9, 9, 9, 9], [], 16384, true⟩)).conn.pumpView =
          ((sendData p (rstStream ⟨⟨0, 5⟩, ⟨0, 5⟩, [9, 9, 9, 9, 9], [], 16384, true⟩)).conn.available : Int)) :=
  ⟨by decide,
    rst_resets_in_flight ⟨⟨0, 5⟩, ⟨0, 5⟩, [9, 9, 9, 9, 9], [], 16384, true⟩
      (by decide)⟩

/-- C4: whenever a drain step of the Outbound Pump delivers a unit, the
unit has size `frameSize` bounded by BOTH available windows (and the max
frame size), and the commit is performed against BOTH the connection-level
and the stream-level tracker together — there is no partial commit. -/
theorem drainStep_commits_both (s s' : FlowState) (h : drainStep s = some s') :
    1 ≤ frameSize s ∧
    frameSize s ≤ s.conn.available ∧
    frameSize s ≤ s.stream.available ∧
    frameSize s ≤ s.maxFrameSize ∧
    s.conn.commit (frameSize s) = some s'.conn ∧
    s.stream.commit (frameSize s) = some s'.stream ∧
    s'.delivered = s.delivered ++ s.queue.take (frameSize s) ∧
    s'.queue = s.queue.drop (frameSize s) := by
  have hfz : frameSize s ≠ 0 := by
    intro h0
    rw [drainStep_none s h0] at h
    cases h
  rw [drainStep_eq s hfz] at h
  injection h with h
  subst h
  refine ⟨by omega, frameSize_le_conn s, frameSize_le_stream s,
    frameSize_le_maxFrame s, ?_, ?_, rfl, rfl⟩
  · unfold WindowTracker.commit
    rw [if_pos (frameSize_le_conn s)]
  · unfold WindowTracker.commit
    rw [if_pos (frameSize_le_stream s)]

/-- Witness for C4: one drain step with windows (conn 3, stream 5), two
queued bytes and two in-flight bytes. -/
theorem drainStep_commits_both_witness :
    drainStep ⟨⟨3, 2⟩, ⟨5, 2⟩, [7, 8], [], 16384, true⟩ =
        some ⟨⟨1, 0⟩, ⟨3, 0⟩, [], [7, 8], 16384, true⟩ ∧
      (1 ≤ frameSize ⟨⟨3, 2⟩, ⟨5, 2⟩, [7, 8], [], 16384, true⟩ ∧
        frameSize ⟨⟨3, 2⟩, ⟨5, 2⟩, [7, 8], [], 16384, true⟩ ≤ 3 ∧
        frameSize ⟨⟨3, 2⟩, ⟨5, 2⟩, [7, 8], [], 16384, true⟩ ≤ 5 ∧
        frameSize ⟨⟨3, 2⟩, ⟨5, 2⟩, [7, 8], [], 16384, true⟩ ≤ 16384 ∧
        WindowTracker.commit
          (frameSize ⟨⟨3, 2⟩, ⟨5, 2⟩, [7, 8], [], 16384, true⟩) ⟨3, 2⟩ =
          some ⟨1, 0⟩ ∧
        WindowTracker.commit
          (frameSize ⟨⟨3, 2⟩, ⟨5, 2⟩, [7, 8], [], 16384, true⟩) ⟨5, 2⟩ =
          some ⟨3, 0⟩ ∧
        ([7, 8] : List Nat) = [] ++ List.take
          (frameSize ⟨⟨3, 2⟩, ⟨5, 2⟩, [7, 8], [], 16384, true⟩) [7, 8] ∧
        ([] : List Nat) = List.drop
          (frameSize ⟨⟨3, 2⟩, ⟨5, 2⟩, [7, 8], [], 16384, true⟩) [7, 8]) :=
  ⟨by decide,
    drainStep_commits_both ⟨⟨3, 2⟩, ⟨5, 2⟩, [7, 8], [], 16384, true⟩
      ⟨⟨1, 0⟩, ⟨3, 0⟩, [], [7, 8], 16384, true⟩ (by decide)⟩

end FlowState

/-!
Part 3: client stream lifecycle (Stream Table, application handle).

The Stream Table and Connection Core implementations are not among the
sources of this repository (only their tests are), so the definitions
below are modelled from the spec (§4.4, §7) and exercised against
`httpbis-test/tests/client.rs` (`rst_is_error`, `handle_1xx_headers`).
-/

/-- Modelled from the spec: terminal outcome delivered to the owning
application handle, exactly once per stream. -/
inductive HandleOutcome where
  | pending
  | completed
  | failed (code : Nat)
deriving DecidableEq

/-- Modelled from the spec: per-stream state kept in the Stream Table —
the identifier and whether a final (non-informational) response header
block has been received. -/
structure StreamEntry where
  id : Nat
  gotFinalHeaders : Bool
deriving DecidableEq

/-- Modelled from the spec: the client connection state visible to these
claims — the Stream Table, the outcome delivered to the application
handle of the stream under test, and how many times an outcome has been
delivered to it (to express "exactly once"). -/
structure ClientState where
  table : List StreamEntry
  outcome : HandleOutcome
  deliveredCount : Nat
deriving DecidableEq

namespace ClientState

/-- Deliver a terminal outcome to the application handle; a handle that
already has an outcome is never re-notified. -/
def deliver (o : HandleOutcome) (st : ClientState) : ClientState :=
  match st.outcome with
  | .pending => { st with outcome := o, deliveredCount := st.deliveredCount + 1 }
  | _ => st

/-- Look up a stream in the Stream Table. -/
def findStream (sid : Nat) (st : ClientState) : Option StreamEntry :=
  st.table.find? (fun e => e.id == sid)

/-- Remove a stream from the Stream Table. -/
def removeStream (sid : Nat) (st : ClientState) : ClientState :=
  { st with table := st.table.filter (fun e => e.id != sid) }

/-- Modelled from the spec: an inbound response header block for stream
`sid`.  An informational (1xx) block does not progress the stream state
and does not terminate it; a final block records final headers and, with
end-of-stream, completes the handle and removes the stream. -/
def recvHeaders (sid : Nat) (informational eos : Bool)
    (st : ClientState) : ClientState :=
  match findStream sid st with
  | none => st
  | some _ =>
    if informational then st
    else if eos then removeStream sid (deliver .completed st)
    else { st with table := st.table.map (fun e =>
      if e.id == sid then { e with gotFinalHeaders := true } else e) }

/-- Modelled from the spec: an inbound DATA block for stream `sid`; with
end-of-stream after final headers it completes the handle and removes the
stream (DATA in any other state is a protocol-error path not taken by
these claims). -/
def recvData (sid : Nat) (eos : Bool) (st : ClientState) : ClientState :=
  match findStream sid st with
  | none => st
  | some e =>
    if e.gotFinalHeaders && eos then removeStream sid (deliver .completed st)
    else st

/-- Modelled from the spec: an inbound RST_STREAM with reason `code`
fails the owning handle with exactly that code (at most once) and removes
the stream from the Stream Table. -/
def recvRst (sid code : Nat) (st : ClientState) : ClientState :=
  match findStream sid st with
  | none => st
  | some _ => removeStream sid (deliver (.failed code) st)

end ClientState

namespace ClientState

theorem recvHeaders_informational (sid : Nat) (st : ClientState) :
    recvHeaders sid true false st = st := by
  unfold recvHeaders
  cases findStream sid st <;> simp

/-- C5: a peer RST_STREAM (here after a 200 header block, as in the test
scenario) fails the application handle exactly once with exactly the
peer-supplied reason code, and removes the stream's entry from the Stream
Table (final stream count zero); a repeated RST is a no-op. -/
theorem rst_fails_handle_once (st : ClientState) (sid code : Nat)
    (htab : st.table = [⟨sid, false⟩])
    (hout : st.outcome = .pending)
    (hcnt : st.deliveredCount = 0) :
    (recvRst sid code (recvHeaders sid false false st)).outcome =
      .failed code ∧
    (recvRst sid code (recvHeaders sid false false st)).deliveredCount = 1 ∧
    (recvRst sid code (recvHeaders sid false false st)).table = [] ∧
    recvRst sid code (recvRst sid code (recvHeaders sid false false st)) =
      recvRst sid code (recvHeaders sid false false st) := by
  cases st with
  | mk table outcome cnt =>
    simp only at htab hout hcnt
    subst htab
    subst hout
    subst hcnt
    simp [recvHeaders, recvRst, findStream, removeStream, deliver,
      List.find?, List.filter]

/-- Witness for C5 at stream 1 with reason code 12 (InadequateSecurity,
as in the `rst_is_error` test). -/
theorem rst_fails_handle_once_witness :
    (⟨[⟨1, false⟩], .pending, 0⟩ : ClientState).table = [⟨1, false⟩] ∧
      ((recvRst 1 12 (recvHeaders 1 false false
          ⟨[⟨1, false⟩], .pending, 0⟩)).outcome = .failed 12 ∧
        (recvRst 1 12 (recvHeaders 1 false false
          ⟨[⟨1, false⟩], .pending, 0⟩)).deliveredCount = 1 ∧
        (recvRst 1 12 (recvHeaders 1 false false
          ⟨[⟨1, false⟩], .pending, 0⟩)).table = [] ∧
        recvRst 1 12 (recvRst 1 12 (recvHeaders 1 false false
          ⟨[⟨1, false⟩], .pending, 0⟩)) =
          recvRst 1 12 (recvHeaders 1 false false
            ⟨[⟨1, false⟩], .pending, 0⟩)) :=
  ⟨rfl, rst_fails_handle_once ⟨[⟨1, false⟩], .pending, 0⟩ 1 12 rfl rfl rfl⟩

/-- C6: any positive number of informational (1xx) header blocks leaves
the stream state untouched (they neither progress nor terminate it);
after a final header block and an end-of-stream DATA block the
application handle completes exactly once and the stream is removed from
the Stream Table (final stream count zero). -/
theorem informational_then_complete_once (st : ClientState) (sid k : Nat)
    (htab : st.table = [⟨sid, false⟩])
    (hout : st.outcome = .pending)
    (hcnt : st.deliveredCount = 0)
    (hk : 1 ≤ k) :
    (recvHeaders sid true false)^[k] st = st ∧
    (recvData sid true (recvHeaders sid false false
      ((recvHeaders sid true false)^[k] st))).outcome = .completed ∧
    (recvData sid true (recvHeaders sid false false
      ((recvHeaders sid true false)^[k] st))).deliveredCount = 1 ∧
    (recvData sid true (recvHeaders sid false false
      ((recvHeaders sid true false)^[k] st))).table = [] := by
  have hfix : (recvHeaders sid true false)^[k] st = st :=
    Function.iterate_fixed (recvHeaders_informational sid st) k
  rw [hfix]
  refine ⟨rfl, ?_, ?_, ?_⟩ <;>
    · cases st with
      | mk table outcome cnt =>
        simp only at htab hout hcnt
        subst htab
        subst hout
        subst hcnt
        simp [recvHeaders, recvData, findStream, removeStream, deliver,
          List.find?, List.filter]

/-- Witness for C6: two informational blocks, then 200 headers, then an
end-of-stream DATA block, on stream 1 (the `handle_1xx_headers`
scenario). -/
theorem informational_then_complete_once_witness :
    (⟨[⟨1, false⟩], .pending, 0⟩ : ClientState).table = [⟨1, false⟩] ∧ 1 ≤ 2 ∧
      ((recvHeaders 1 true false)^[2] ⟨[⟨1, false⟩], .pending, 0⟩ =
          ⟨[⟨1, false⟩], .pending, 0⟩ ∧
        (recvData 1 true (recvHeaders 1 false false
          ((recvHeaders 1 true false)^[2]
            ⟨[⟨1, false⟩], .pending, 0⟩))).outcome = .completed ∧
        (recvData 1 true (recvHeaders 1 false false
          ((recvHeaders 1 true false)^[2]
            ⟨[⟨1, false⟩], .pending, 0⟩))).deliveredCount = 1 ∧
        (recvData 1 true (recvHeaders 1 false false
          ((recvHeaders 1 true false)^[2]
            ⟨[⟨1, false⟩], .pending, 0⟩))).table = []) :=
  ⟨rfl, by decide,
    informational_then_complete_once ⟨[⟨1, false⟩], .pending, 0⟩ 1 2
      rfl rfl rfl (by decide)⟩

end ClientState
